import Mathlib

/-!
Verification of the Flototext core against its specification.

Text is modelled as a list of Unicode code points (`List Nat`); all inputs
exercised here are ASCII, and the Python `str.lower` / `str.upper` /
`str.isupper` semantics are embedded for the ASCII range.  Machine floats
(audio samples, timestamps, durations) are modelled as exact rationals.
-/

namespace Flototext

/-! ## Character and string helpers (Python ASCII semantics) -/

/-- Python `str.lower` on one ASCII code point. -/
def lowerN (c : Nat) : Nat := if 65 ≤ c ∧ c ≤ 90 then c + 32 else c

/-- Python `str.upper` on one ASCII code point. -/
def upperN (c : Nat) : Nat := if 97 ≤ c ∧ c ≤ 122 then c - 32 else c

/-- Whether an ASCII code point is an upper-case letter. -/
def isUpperN (c : Nat) : Bool := decide (65 ≤ c ∧ c ≤ 90)

/-- Whether an ASCII code point is a lower-case letter. -/
def isLowerN (c : Nat) : Bool := decide (97 ≤ c ∧ c ≤ 122)

/-- Whether an ASCII code point is cased (has distinct upper/lower forms). -/
def isCasedN (c : Nat) : Bool := isUpperN c || isLowerN c

/-- Python `str.lower` on a string. -/
def pyLower (s : List Nat) : List Nat := s.map lowerN

/-- Python `str.upper` on a string. -/
def pyUpper (s : List Nat) : List Nat := s.map upperN

/-- Python `str.isupper`: at least one cased character and every cased
character upper-case. -/
def pyStrIsUpper (s : List Nat) : Bool :=
  s.any isCasedN && s.all (fun c => !isCasedN c || isUpperN c)

/-- Regex word character, Python `\w` restricted to ASCII:
`[a-zA-Z0-9_]`. -/
def wordCharN (c : Nat) : Bool :=
  isUpperN c || isLowerN c || decide (48 ≤ c ∧ c ≤ 57) || decide (c = 95)

/-- Code points of a Lean string literal, for writing concrete examples. -/
def codes (s : String) : List Nat := s.toList.map Char.toNat

/-! ## TextCorrector (src/flototext/core/text_corrector.py)

A rule set is the `corrections` dict, as an association list in dict
insertion order; keys and values are strings. -/

/-- One correction rule: (heard key, canonical replacement). -/
abbrev Rule := List Nat × List Nat

/-- Insert a key into a length-descending-sorted key list, keeping existing
keys of the same length in front (matching the stability of Python
`sorted(keys, key=len, reverse=True)` built by `foldr`). -/
def insertDesc (k : List Nat) : List (List Nat) → List (List Nat)
  | [] => [k]
  | x :: xs => if k.length < x.length then x :: insertDesc k xs else k :: x :: xs

/-- Stable sort of the rule keys by descending length, as in
`TextCorrector._build_pattern`:
`sorted(self._corrections.keys(), key=len, reverse=True)`. -/
def sortKeysDesc (ks : List (List Nat)) : List (List Nat) :=
  ks.foldr insertDesc []

/-- The alternation order of the compiled pattern
`\b(k1|k2|...)\b` from `_build_pattern`: the rule keys, longest first. -/
def buildPatternKeys (rules : List Rule) : List (List Nat) :=
  sortKeysDesc (rules.map Prod.fst)

/-- Regex `\b` assertion between two adjacent positions: true when exactly
one side is a word character (out-of-string counts as non-word). -/
def boundaryB (prev next : Option Nat) : Bool :=
  (match prev with | some c => wordCharN c | none => false) !=
  (match next with | some c => wordCharN c | none => false)

/-- Case-insensitive literal match of a key against a prefix of the
remaining text (re.IGNORECASE on an escaped literal alternative). -/
def ciStarts : List Nat → List Nat → Bool
  | [], _ => true
  | _ :: _, [] => false
  | k :: ks, t :: ts => (lowerN k == lowerN t) && ciStarts ks ts

/-- Whether one alternative `k` matches at the current position: leading
`\b`, the literal key case-insensitively, then trailing `\b`. `prev` is the
character before the position, `rest` the text from the position on. -/
def altMatches (prev : Option Nat) (rest : List Nat) (k : List Nat) : Bool :=
  boundaryB prev rest.head? && ciStarts k rest &&
    boundaryB (if k.isEmpty then prev else (rest.take k.length).getLast?)
      (rest.drop k.length).head?

/-- First alternative (in pattern order) matching at the current position;
the regex engine tries alternatives left to right and backtracks to the
next alternative when a trailing `\b` fails. -/
def findAlt (keys : List (List Nat)) (prev : Option Nat) (rest : List Nat) :
    Option (List Nat) :=
  keys.find? (fun k => altMatches prev rest k)

/-- Left-to-right non-overlapping substitution scan of
`re.Pattern.sub(repl, text)`: at each position try the alternatives; on a
match emit `repl` of the matched surface and continue after it, else copy
one character.  `fuel` bounds the recursion; `patternSub` supplies enough
for the whole text. -/
def subAux (keys : List (List Nat)) (repl : List Nat → List Nat) :
    Nat → Option Nat → List Nat → List Nat
  | 0, _, rest => rest
  | fuel + 1, prev, rest =>
    match findAlt keys prev rest with
    | some k =>
      let surface := rest.take k.length
      if k.length == 0 then
        match rest with
        | [] => repl surface
        | c :: cs => repl surface ++ c :: subAux keys repl fuel (some c) cs
      else
        repl surface ++ subAux keys repl fuel surface.getLast? (rest.drop k.length)
    | none =>
      match rest with
      | [] => []
      | c :: cs => c :: subAux keys repl fuel (some c) cs

/-- `re.Pattern.sub(repl, text)` for the pattern `\b(...|...)\b`. -/
def patternSub (keys : List (List Nat)) (repl : List Nat → List Nat)
    (text : List Nat) : List Nat :=
  subAux keys repl (text.length + 1) none text

/-- The local `replace_match` of `TextCorrector.correct`: look the matched
surface up case-insensitively in the corrections dict (first hit in
insertion order) and apply the case-preservation branches of the source. -/
def replaceMatch (rules : List Rule) (matched : List Nat) : List Nat :=
  match rules with
  | [] => matched
  | (key, value) :: rest =>
    if pyLower key == pyLower matched then
      if pyStrIsUpper matched then pyUpper value
      else if isUpperN (matched.headD 0) && decide (1 < matched.length) then
        if 1 < value.length then upperN (value.headD 0) :: value.tail
        else pyUpper value
      else value
    else replaceMatch rest matched

/-- `TextCorrector.correct`: return the text unchanged when it is empty or
there are no corrections (then `_pattern` is `None`); otherwise substitute
every whole-word case-insensitive pattern match via `replace_match`. -/
def correct (rules : List Rule) (text : List Nat) : List Nat :=
  if text.isEmpty || rules.isEmpty then text
  else patternSub (buildPatternKeys rules) (replaceMatch rules) text

/-- Whether the pattern matches anywhere in the text (used to state the
idempotence hypothesis: the corrected output contains no dictionary key as
a whole-word case-insensitive match). -/
def hasMatchAux (keys : List (List Nat)) : Option Nat → List Nat → Bool
  | prev, [] => (findAlt keys prev []).isSome
  | prev, c :: cs => (findAlt keys prev (c :: cs)).isSome || hasMatchAux keys (some c) cs

/-- Whether any rule key occurs in the text as a whole-word
case-insensitive match. -/
def hasMatch (keys : List (List Nat)) (text : List Nat) : Bool :=
  hasMatchAux keys none text

/-! ## Spec-side definitions for the case-preservation claim

These follow the words of the claim (and its amendment), to be compared
against `replaceMatch` / `correct`, which are translated from the source. -/

/-- Replacement value of the rule whose key equals the matched surface
case-insensitively (first hit in insertion order). -/
def lookupRule (rules : List Rule) (matched : List Nat) : Option (List Nat) :=
  (rules.find? (fun r => pyLower r.1 == pyLower matched)).map Prod.snd

/-- The value with its first character upper-cased and the rest as stored. -/
def upperFirst : List Nat → List Nat
  | [] => []
  | c :: cs => upperN c :: cs

/-- Whether only the first character of the surface is upper-case: the
first character is upper-case and no later character is. -/
def onlyFirstUpper (s : List Nat) : Bool :=
  isUpperN (s.headD 0) && s.tail.all (fun c => !isUpperN c)

/-- Case-preservation policy exactly as the claim states it: all
upper-case surface takes the upper-cased value; a surface whose ONLY
upper-case character is the first takes the value with its first character
upper-cased; any other surface takes the value exactly as stored. -/
def casePolicyClaim (matched value : List Nat) : List Nat :=
  if pyStrIsUpper matched then pyUpper value
  else if onlyFirstUpper matched then upperFirst value
  else value

/-- Case-preservation policy as amended: the middle branch applies
whenever the first character of the surface is upper-case (and the surface
is not all upper-case), regardless of the case of later characters. -/
def casePolicyAmended (matched value : List Nat) : List Nat :=
  if pyStrIsUpper matched then pyUpper value
  else if isUpperN (matched.headD 0) then upperFirst value
  else value

/-- Per-match replacement under the claim as stated. -/
def replaceSpecClaim (rules : List Rule) (matched : List Nat) : List Nat :=
  match lookupRule rules matched with
  | some v => casePolicyClaim matched v
  | none => matched

/-- Per-match replacement under the amended claim. -/
def replaceSpecAmended (rules : List Rule) (matched : List Nat) : List Nat :=
  match lookupRule rules matched with
  | some v => casePolicyAmended matched v
  | none => matched

/-- Full correction under the claim as stated: same matching as the
source, per-match replacement as the claim words it. -/
def correctSpecClaim (rules : List Rule) (text : List Nat) : List Nat :=
  if text.isEmpty || rules.isEmpty then text
  else patternSub (buildPatternKeys rules) (replaceSpecClaim rules) text

/-- Full correction under the amended claim. -/
def correctSpecAmended (rules : List Rule) (text : List Nat) : List Nat :=
  if text.isEmpty || rules.isEmpty then text
  else patternSub (buildPatternKeys rules) (replaceSpecAmended rules) text

/-! ## HotkeyManager (src/flototext/core/hotkey_manager.py)

The detector state is the pair of the `_is_pressed` tracking flag and the
`_enabled` gate; keys are opaque numeric identifiers and the trigger key
is a parameter.  A step consumes one raw event (`_on_press` / `_on_release`
callback from the listener, or `enable()` / `disable()`) and emits the
press/release edges dispatched to the callbacks. -/

/-- Detector state: `_is_pressed` and `_enabled`. -/
structure HkState where
  isPressed : Bool
  enabled : Bool
  deriving DecidableEq

/-- Raw input to the detector: OS key events and the gate toggles. -/
inductive HkEvent where
  | down (k : Nat)
  | up (k : Nat)
  | enable
  | disable
  deriving DecidableEq

/-- An emitted edge: the `on_key_press` / `on_key_release` callback. -/
inductive Edge where
  | press
  | release
  deriving DecidableEq

/-- One step of the detector: `_on_press` ignores everything while
disabled, else fires a press edge on the trigger key when `_is_pressed`
is clear; `_on_release` symmetrically; `enable` / `disable` only flip the
gate and never touch `_is_pressed`. -/
def hkStep (trig : Nat) (s : HkState) : HkEvent → HkState × List Edge
  | .down k =>
    if !s.enabled then (s, [])
    else if k == trig && !s.isPressed then ({ s with isPressed := true }, [.press])
    else (s, [])
  | .up k =>
    if !s.enabled then (s, [])
    else if k == trig && s.isPressed then ({ s with isPressed := false }, [.release])
    else (s, [])
  | .enable => ({ s with enabled := true }, [])
  | .disable => ({ s with enabled := false }, [])

/-- Run the detector over a raw event sequence, collecting emitted edges. -/
def hkRun (trig : Nat) (s : HkState) : List HkEvent → HkState × List Edge
  | [] => (s, [])
  | e :: es =>
    let (s1, out) := hkStep trig s e
    let (s2, rest) := hkRun trig s1 es
    (s2, out ++ rest)

/-- Detector state at construction: not pressed, enabled. -/
def hkInit : HkState := { isPressed := false, enabled := true }

/-! ## Transcriber (src/flototext/core/transcriber.py)

Audio samples are exact rationals standing for the float32 samples.  The
underlying Qwen3-ASR model is an oracle parameter; `transcribe` records
whether it was invoked and with which (possibly normalized) samples, so
that the no-model-call and normalization claims are observable. -/

/-- Transcriber lifecycle flags `_model_loaded` and `_loading`. -/
structure TransState where
  modelLoaded : Bool
  loading : Bool
  deriving DecidableEq

/-- Outcome of one underlying model invocation: a transcription (with an
optional detected language), a CUDA out-of-memory error, or any other
runtime error. -/
inductive ModelOutcome where
  | ok (text : List Nat) (language : Option String)
  | oom
  | failure (msg : String)

/-- The dataclass `TranscriptionResult`. -/
structure TranscriptionResult where
  text : List Nat
  language : String
  success : Bool
  error : Option String
  deriving DecidableEq

/-- Observable outcome of one `transcribe` call: the returned result,
whether the underlying model was called and on which samples, and the
transcriber state afterwards (the method never mutates it). -/
structure InferOutcome where
  result : TranscriptionResult
  modelCalled : Bool
  samplesSent : Option (List ℚ)
  finalState : TransState

/-- Peak of the absolute samples, `np.abs(audio_data).max()` (over a
nonempty array; the 0 seed is exact there since samples are compared by
absolute value). -/
def maxAbs (l : List ℚ) : ℚ := l.foldl (fun m x => max m |x|) 0

/-- `Transcriber.transcribe`: fail fast with the model-not-loaded error
while the model is not loaded, touching neither the samples nor the model;
otherwise peak-normalize (skipping the division when the peak is zero) and
invoke the model, mapping its outcome to a `TranscriptionResult` as the
success and except branches of the source do.  `lang` is
`localization.asr_language`; error strings stand for the localization
lookups. -/
def transcribe (lang : String) (modelFn : List ℚ → Nat → ModelOutcome)
    (st : TransState) (audioData : List ℚ) (sampleRate : Nat) : InferOutcome :=
  if !st.modelLoaded then
    { result := { text := [], language := lang, success := false,
                  error := some "errors.model_not_loaded" }
      modelCalled := false, samplesSent := none, finalState := st }
  else if audioData.isEmpty then
    -- numpy raises on the peak of an empty array; the generic except branch
    -- turns that into a transcription-error result without a model call
    { result := { text := [], language := lang, success := false,
                  error := some "errors.transcription_error" }
      modelCalled := false, samplesSent := none, finalState := st }
  else
    let maxVal := maxAbs audioData
    let normalized := if 0 < maxVal then audioData.map (· / maxVal) else audioData
    match modelFn normalized sampleRate with
    | .ok text detected =>
      { result := { text := text, language := detected.getD lang, success := true,
                    error := none }
        modelCalled := true, samplesSent := some normalized, finalState := st }
    | .oom =>
      { result := { text := [], language := lang, success := false,
                    error := some "errors.gpu_oom" }
        modelCalled := true, samplesSent := some normalized, finalState := st }
    | .failure msg =>
      { result := { text := [], language := lang, success := false,
                    error := some msg }
        modelCalled := true, samplesSent := some normalized, finalState := st }

/-! ## AudioRecorder (src/flototext/core/audio_recorder.py)

Timestamps and durations are rationals; chunks are lists of samples.  The
`sounddevice` stream is abstracted to an open/closed flag plus a
`streamOk` parameter for whether opening the input stream succeeds. -/

/-- `config.audio.min_duration` (0.5 seconds). -/
def minDuration : ℚ := 1 / 2

/-- `config.audio.sample_rate`. -/
def defaultSampleRate : Nat := 16000

/-- Recorder state: `_recording`, `_audio_data`, `_start_time`, whether a
stream is open, and the configured sample rate. -/
structure RecState where
  recording : Bool
  audioData : List (List ℚ)
  startTime : ℚ
  streamOpen : Bool
  sampleRate : Nat
  deriving DecidableEq

/-- The dataclass `RecordingResult`. -/
structure RecordingResult where
  audioData : List ℚ
  sampleRate : Nat
  duration : ℚ
  isValid : Bool
  deriving DecidableEq

/-- Recorder state at construction. -/
def recInit : RecState :=
  { recording := false, audioData := [], startTime := 0, streamOpen := false,
    sampleRate := defaultSampleRate }

/-- `AudioRecorder.start_recording` at wall-clock time `now`: return false
untouched when already recording; otherwise clear the chunk list, record
the start timestamp, and open the stream — on stream failure (the except
branch) the recording flag stays false and false is returned. -/
def startRecording (now : ℚ) (streamOk : Bool) (st : RecState) : Bool × RecState :=
  if st.recording then (false, st)
  else
    let st1 := { st with audioData := [], startTime := now }
    if streamOk then (true, { st1 with streamOpen := true, recording := true })
    else (false, { st1 with recording := false })

/-- `AudioRecorder.stop_recording` at wall-clock time `now`: `None` when
not recording; otherwise clear the recording flag, close the stream,
compute `duration = now - start_time`, and return the no-audio invalid
result (duration field 0) when no chunks were appended, else the
concatenated samples tagged valid iff the duration reaches
`config.audio.min_duration`. -/
def stopRecording (now : ℚ) (st : RecState) : Option RecordingResult × RecState :=
  if !st.recording then (none, st)
  else
    let duration := now - st.startTime
    let st1 := { st with recording := false, streamOpen := false }
    if st.audioData.isEmpty then
      (some { audioData := [], sampleRate := st.sampleRate, duration := 0,
              isValid := false }, st1)
    else
      (some { audioData := st.audioData.flatten, sampleRate := st.sampleRate,
              duration := duration,
              isValid := decide (minDuration ≤ duration) }, st1)

/-! ## FlototextApp session controller (src/flototext/main.py)

The controller state is the `_processing` flag, the transcriber readiness
it consults, the recorder, and the tray icon state; the hotkey handlers
are steps emitting the UI side effects as events. -/

/-- The tray `AppState`. -/
inductive TrayState where
  | loading
  | idle
  | recording
  | processing
  | error
  deriving DecidableEq

/-- UI side effects fired by the hotkey handlers. -/
inductive AppEvent where
  | errorSound
  | startSound
  | stopSound
  | muteAudio
  | unmuteAudio
  | tooShortNotice
  | spawnProcessing
  | stopFailure
  deriving DecidableEq

/-- Application state visible to the hotkey handlers. -/
structure AppState where
  processing : Bool
  transcriberLoaded : Bool
  recorder : RecState
  tray : TrayState
  deriving DecidableEq

/-- `FlototextApp._on_hotkey_press`: reject with an error sound while the
transcriber is not ready; reject silently while `_processing` is set; else
try to start recording and on success switch the tray to recording, play
the start sound and mute system audio. -/
def onHotkeyPress (now : ℚ) (streamOk : Bool) (app : AppState) :
    AppState × List AppEvent :=
  if !app.transcriberLoaded then (app, [.errorSound])
  else if app.processing then (app, [])
  else
    let (started, rec1) := startRecording now streamOk app.recorder
    if started then
      ({ app with recorder := rec1, tray := .recording },
        [.startSound, .muteAudio])
    else ({ app with recorder := rec1 }, [])

/-- `FlototextApp._on_hotkey_release`: a no-op when not recording; else
stop the recording, unmute and play the stop sound, drop invalid (too
short / no audio) results back to idle, and for a valid result set the
`_processing` flag, switch the tray to processing and spawn the
asynchronous transcription work. -/
def onHotkeyRelease (now : ℚ) (app : AppState) : AppState × List AppEvent :=
  if !app.recorder.recording then (app, [])
  else
    match stopRecording now app.recorder with
    | (none, rec1) =>
      ({ app with recorder := rec1 }, [.unmuteAudio, .stopSound, .stopFailure])
    | (some r, rec1) =>
      let app1 := { app with recorder := rec1 }
      if !r.isValid then
        ({ app1 with tray := .idle },
          [.unmuteAudio, .stopSound, .tooShortNotice])
      else
        ({ app1 with processing := true, tray := .processing },
          [.unmuteAudio, .stopSound, .spawnProcessing])

/-! ## Helper lemmas -/

/-- Membership in the insertion step of the key sort. -/
lemma mem_insertDesc {a k : List Nat} :
    ∀ {l : List (List Nat)}, a ∈ insertDesc k l ↔ a = k ∨ a ∈ l := by
  intro l
  induction l with
  | nil => simp [insertDesc]
  | cons x xs ih =>
    unfold insertDesc
    split
    · simp only [List.mem_cons, ih]
      tauto
    · simp only [List.mem_cons]

/-- The insertion step preserves the length-descending ordering. -/
lemma pairwise_insertDesc {k : List Nat} :
    ∀ {l : List (List Nat)},
      l.Pairwise (fun x y => y.length ≤ x.length) →
      (insertDesc k l).Pairwise (fun x y => y.length ≤ x.length) := by
  intro l
  induction l with
  | nil => simp [insertDesc]
  | cons x xs ih =>
    intro hp
    rw [List.pairwise_cons] at hp
    obtain ⟨hx, hxs⟩ := hp
    unfold insertDesc
    split
    · next hlt =>
      rw [List.pairwise_cons]
      refine ⟨?_, ih hxs⟩
      intro b hb
      rcases mem_insertDesc.mp hb with hbk | hbxs
      · subst hbk
        exact Nat.le_of_lt hlt
      · exact hx b hbxs
    · next hge =>
      rw [List.pairwise_cons]
      refine ⟨?_, List.pairwise_cons.mpr ⟨hx, hxs⟩⟩
      intro b hb
      rcases List.mem_cons.mp hb with hbx | hbxs
      · subst hbx
        exact Nat.le_of_not_lt hge
      · exact Nat.le_trans (hx b hbxs) (Nat.le_of_not_lt hge)

/-- The sorted key list is ordered by descending length. -/
lemma sortKeysDesc_pairwise (ks : List (List Nat)) :
    (sortKeysDesc ks).Pairwise (fun x y => y.length ≤ x.length) := by
  induction ks with
  | nil => simp [sortKeysDesc]
  | cons k t ih => exact pairwise_insertDesc ih

/-- Sorting the keys neither adds nor drops any key. -/
lemma mem_sortKeysDesc {a : List Nat} :
    ∀ {ks : List (List Nat)}, a ∈ sortKeysDesc ks ↔ a ∈ ks := by
  intro ks
  induction ks with
  | nil => simp [sortKeysDesc]
  | cons k t ih =>
    show a ∈ insertDesc k (sortKeysDesc t) ↔ _
    rw [mem_insertDesc]
    simp [ih]

/-- In a length-descending key list, the first alternative accepted by the
engine is at least as long as every alternative that would also match. -/
lemma find?_longest {p : List Nat → Bool} :
    ∀ {keys : List (List Nat)} {k : List Nat},
      keys.Pairwise (fun x y => y.length ≤ x.length) →
      keys.find? p = some k →
      ∀ k1 ∈ keys, p k1 = true → k1.length ≤ k.length := by
  intro keys
  induction keys with
  | nil => intro k _ h; simp [List.find?] at h
  | cons x t ih =>
    intro k hp hf k1 hk1 hpk1
    rw [List.pairwise_cons] at hp
    obtain ⟨hx, ht⟩ := hp
    by_cases hpx : p x
    · rw [List.find?_cons_of_pos _ hpx] at hf
      injection hf with hf
      subst hf
      rcases List.mem_cons.mp hk1 with h1 | h1
      · subst h1; exact Nat.le_refl _
      · exact hx k1 h1
    · rw [List.find?_cons_of_neg _ hpx] at hf
      rcases List.mem_cons.mp hk1 with h1 | h1
      · subst h1; exact absurd hpk1 (by simp [hpx])
      · exact ih ht hf k1 h1 hpk1

/-- A text in which the pattern finds no match is returned verbatim by the
substitution scan, for any amount of fuel. -/
lemma subAux_eq_self_of_noMatch (keys : List (List Nat))
    (repl : List Nat → List Nat) :
    ∀ (rest : List Nat) (prev : Option Nat) (fuel : Nat),
      hasMatchAux keys prev rest = false →
      subAux keys repl fuel prev rest = rest := by
  intro rest
  induction rest with
  | nil =>
    intro prev fuel h
    cases fuel with
    | zero => rfl
    | succ n =>
      unfold hasMatchAux at h
      cases hf : findAlt keys prev [] with
      | some k => rw [hf] at h; simp at h
      | none => simp [subAux, hf]
  | cons c cs ih =>
    intro prev fuel h
    unfold hasMatchAux at h
    rw [Bool.or_eq_false_iff] at h
    obtain ⟨h1, h2⟩ := h
    cases fuel with
    | zero => rfl
    | succ n =>
      cases hf : findAlt keys prev (c :: cs) with
      | some k => rw [hf] at h1; simp at h1
      | none => simp [subAux, hf, ih (some c) n h2]

/-- The case branches of the source `replace_match` coincide with the
amended case-preservation policy. -/
lemma caseBranches_eq_amended (matched value : List Nat) :
    (if pyStrIsUpper matched then pyUpper value
     else if isUpperN (matched.headD 0) && decide (1 < matched.length) then
       if 1 < value.length then upperN (value.headD 0) :: value.tail
       else pyUpper value
     else value) = casePolicyAmended matched value := by
  unfold casePolicyAmended
  by_cases hU : pyStrIsUpper matched
  · simp [hU]
  · simp only [hU, Bool.false_eq_true, if_false]
    match matched with
    | [] => simp [List.headD, isUpperN]
    | [c] =>
      by_cases hH : isUpperN c
      · exact absurd (by simp [pyStrIsUpper, isCasedN, hH]) hU
      · simp [List.headD, hH]
    | a :: b :: t =>
      by_cases hH : isUpperN a
      · simp only [List.headD, hH, List.length_cons, if_true, true_and,
          show (1 : Nat) < t.length + 1 + 1 by omega, decide_eq_true_eq, if_pos]
        match value with
        | [] => simp [upperFirst, pyUpper]
        | [v] => simp [upperFirst, pyUpper, List.headD]
        | x :: y :: ys => simp [upperFirst, List.headD]
      · simp [List.headD, hH]

/-- The source `replace_match` computes exactly the amended spec-side
replacement (case-insensitive first-hit lookup plus amended policy). -/
lemma replaceMatch_eq_amended (rules : List Rule) (matched : List Nat) :
    replaceMatch rules matched = replaceSpecAmended rules matched := by
  induction rules with
  | nil => simp [replaceMatch, replaceSpecAmended, lookupRule]
  | cons r rest ih =>
    obtain ⟨key, value⟩ := r
    by_cases h : pyLower key == pyLower matched
    · unfold replaceMatch replaceSpecAmended lookupRule
      rw [List.find?_cons_of_pos _ (by simpa using h)]
      simp only [h, if_true, Option.map_some]
      exact caseBranches_eq_amended matched value
    · unfold replaceMatch replaceSpecAmended lookupRule
      rw [List.find?_cons_of_neg _ (by simpa using h)]
      simp only [h, if_false]
      exact ih

/-- Bounds of the foldl computing the peak: the seed never exceeds the
result and every absolute sample is bounded by the result. -/
lemma foldl_maxAbs_bounds (l : List ℚ) :
    ∀ (init : ℚ),
      init ≤ l.foldl (fun m x => max m |x|) init ∧
      ∀ x ∈ l, |x| ≤ l.foldl (fun m x => max m |x|) init := by
  induction l with
  | nil => intro init; simp
  | cons a t ih =>
    intro init
    have step : init ≤ max init |a| := le_max_left _ _
    obtain ⟨h1, h2⟩ := ih (max init |a|)
    constructor
    · calc init ≤ max init |a| := step
        _ ≤ _ := h1
    · intro x hx
      rcases List.mem_cons.mp hx with h | h
      · subst h
        calc |x| ≤ max init |x| := le_max_right _ _
          _ ≤ _ := h1
      · exact h2 x h

/-- Every sample is bounded in absolute value by the peak. -/
lemma abs_le_maxAbs (l : List ℚ) : ∀ x ∈ l, |x| ≤ maxAbs l :=
  (foldl_maxAbs_bounds l 0).2

/-- The peak is nonnegative. -/
lemma maxAbs_nonneg (l : List ℚ) : 0 ≤ maxAbs l :=
  (foldl_maxAbs_bounds l 0).1

/-- Unfolding of one detector run step. -/
lemma hkRun_cons (trig : Nat) (s : HkState) (e : HkEvent) (es : List HkEvent) :
    hkRun trig s (e :: es) =
      ((hkRun trig (hkStep trig s e).1 es).1,
        (hkStep trig s e).2 ++ (hkRun trig (hkStep trig s e).1 es).2) := by
  rcases h : hkStep trig s e with ⟨s1, out⟩
  simp [hkRun, h]

/-- A raw event other than a trigger key-down never makes the detector
emit a press edge. -/
lemma press_not_in_step (trig : Nat) (s : HkState) (e : HkEvent)
    (h : e ≠ HkEvent.down trig) : Edge.press ∉ (hkStep trig s e).2 := by
  cases e with
  | down k =>
    have hk : k ≠ trig := fun hkeq => h (by rw [hkeq])
    simp [hkStep, hk]
  | up k =>
    simp [hkStep]
    split
    · simp
    · split <;> simp
  | enable => simp [hkStep]
  | disable => simp [hkStep]

/-! ## Concrete data for the longest-match example -/

/-- The example rule set: the key `ia` maps to `IA`, and the key
(l, apostrophe, i, a) maps to (l, apostrophe, I, A); code point 39 is the
apostrophe.  Association order is the dict insertion order. -/
def exampleRules : List Rule :=
  [(codes "ia", codes "IA"), ([108, 39, 105, 97], [108, 39, 73, 65])]

/-- The example input, the French phrase
(j, apostrophe, a, i, m, e, space, l, apostrophe, i, a). -/
def exampleText : List Nat := [106, 39, 97, 105, 109, 101, 32, 108, 39, 105, 97]

/-- The expected output, with the longer key winning:
(j, apostrophe, a, i, m, e, space, l, apostrophe, I, A). -/
def exampleOut : List Nat := [106, 39, 97, 105, 109, 101, 32, 108, 39, 73, 65]

/-! ## Claims -/

/-- C1: whenever the `_processing` flag is set, every press edge delivered
to `_on_hotkey_press` is rejected with no state change — the application
state (recorder included, so no recording is started and no second session
is created) is returned untouched, and none of the emitted side effects is
the start-recording sound or the system-audio mute that accompany a
recording start. -/
theorem pressRejectedWhileProcessing (now : ℚ) (streamOk : Bool)
    (app : AppState) (h : app.processing = true) :
    (onHotkeyPress now streamOk app).1 = app ∧
      ∀ e ∈ (onHotkeyPress now streamOk app).2,
        e ≠ AppEvent.startSound ∧ e ≠ AppEvent.muteAudio := by
  unfold onHotkeyPress
  cases hl : app.transcriberLoaded <;> simp [hl, h]

/-- Witness for C1 at a concrete state with the processing flag set. -/
theorem pressRejectedWhileProcessingWitness :
    (onHotkeyPress 0 true
      { processing := true, transcriberLoaded := true, recorder := recInit,
        tray := TrayState.idle }).1 =
      { processing := true, transcriberLoaded := true, recorder := recInit,
        tray := TrayState.idle } :=
  (pressRejectedWhileProcessing 0 true _ rfl).1

/-- C2 counterexample: with the single rule mapping `abc` to `xyz`, the
matched surface `ABc` has an upper-case character after the first, so the
claim as stated picks its otherwise-branch and predicts the replacement
`xyz` exactly as stored; the source capitalizes the replacement to `Xyz`
because its branch tests only the first character. -/
theorem casePreservationCounterexample :
    correct [(codes "abc", codes "xyz")] (codes "ABc") = codes "Xyz" ∧
      correctSpecClaim [(codes "abc", codes "xyz")] (codes "ABc") = codes "xyz" ∧
      codes "Xyz" ≠ codes "xyz" := by
  refine ⟨by decide, by decide, by decide⟩

/-- C2 amended: `correct` replaces every matched occurrence by the stored
value transformed by the amended case policy — upper-cased when the
surface is all upper-case in the Python sense, first-character-upper-cased
whenever the first surface character is upper-case (regardless of the case
of the remaining characters), and verbatim otherwise. -/
theorem casePreservationAmended (rules : List Rule) (text : List Nat) :
    correct rules text = correctSpecAmended rules text := by
  unfold correct correctSpecAmended
  split
  · rfl
  · rw [funext (replaceMatch_eq_amended rules)]

/-- C3: the compiled alternation tries rule keys longest first, so the
alternative the engine accepts at any position is at least as long as any
rule key that also matches there (a shorter key never pre-empts a longer
one); in particular the example rules applied to the example text replace
the longer key. -/
theorem longestMatchPrecedence :
    (∀ (rules : List Rule) (prev : Option Nat) (rest k k1 : List Nat),
        findAlt (buildPatternKeys rules) prev rest = some k →
        k1 ∈ rules.map Prod.fst → altMatches prev rest k1 = true →
        k1.length ≤ k.length) ∧
      correct exampleRules exampleText = exampleOut := by
  constructor
  · intro rules prev rest k k1 hf hk1 hm
    exact find?_longest (sortKeysDesc_pairwise _) hf k1 (mem_sortKeysDesc.mpr hk1) hm
  · decide

/-- Witness for C3, instantiating the general part at the example: at the
position right after the space the engine accepts the four-character key. -/
theorem longestMatchPrecedenceWitness :
    findAlt (buildPatternKeys exampleRules) (some 32) [108, 39, 105, 97] =
        some [108, 39, 105, 97] ∧
      ([108, 39, 105, 97] : List Nat).length ≤
        ([108, 39, 105, 97] : List Nat).length :=
  ⟨by decide,
    longestMatchPrecedence.1 exampleRules (some 32) [108, 39, 105, 97]
      [108, 39, 105, 97] [108, 39, 105, 97] (by decide) (by decide) (by decide)⟩

/-- C4 counterexample: the trigger key goes down while the detector is
disabled (ignored, pressed-state stays clear), the detector is re-enabled
while the key is still physically held (the trace contains no key-up), and
the next OS auto-repeat key-down already fires a press edge — before any
genuine new physical press (release followed by a fresh down). -/
theorem hotkeyGateCounterexample :
    (hkRun 0 hkInit
        [HkEvent.disable, HkEvent.down 0, HkEvent.enable, HkEvent.down 0]).2 =
      [Edge.press] ∧
      ∀ e ∈ [HkEvent.disable, HkEvent.down 0, HkEvent.enable, HkEvent.down 0],
        e ≠ HkEvent.up 0 := by
  refine ⟨by decide, by decide⟩

/-- C4 amended: while disabled, raw key events are ignored without
touching the pressed-state; and a press edge can only be produced by a raw
key-down of the trigger delivered while enabled — re-enabling by itself
(or any sequence free of trigger key-downs) emits no press edge.  The
original guarantee (no press until release plus fresh down) holds only for
event streams without OS auto-repeat downs. -/
theorem hotkeyGateAmended (trig : Nat) :
    (∀ (s : HkState) (k : Nat), s.enabled = false →
        hkStep trig s (HkEvent.down k) = (s, []) ∧
        hkStep trig s (HkEvent.up k) = (s, [])) ∧
      ∀ (s : HkState) (evs : List HkEvent),
        (∀ e ∈ evs, e ≠ HkEvent.down trig) →
        Edge.press ∉ (hkRun trig s evs).2 := by
  constructor
  · intro s k hs
    constructor <;> simp [hkStep, hs]
  · intro s evs
    induction evs generalizing s with
    | nil => intro _; simp [hkRun]
    | cons e es ih =>
      intro h
      rw [hkRun_cons]
      simp only [List.mem_append]
      push_neg
      exact ⟨press_not_in_step trig s e (h e (List.mem_cons_self e es)),
        ih _ fun e1 he1 => h e1 (List.mem_cons_of_mem e he1)⟩

/-- Witness for C4 amended: a disabled detector with the trigger held
ignores a key-down, and an enable followed by a key-up emits no press. -/
theorem hotkeyGateAmendedWitness :
    hkStep 0 { isPressed := true, enabled := false } (HkEvent.down 0) =
        ({ isPressed := true, enabled := false }, []) ∧
      Edge.press ∉
        (hkRun 0 { isPressed := true, enabled := false }
          [HkEvent.enable, HkEvent.up 0]).2 :=
  ⟨((hotkeyGateAmended 0).1 { isPressed := true, enabled := false } 0 rfl).1,
    (hotkeyGateAmended 0).2 { isPressed := true, enabled := false }
      [HkEvent.enable, HkEvent.up 0] (by decide)⟩

/-- C5: `transcribe` called while the model is not loaded returns the
failed model-not-ready result immediately: no model call, no normalization
(no samples are touched), and the transcriber state is unchanged. -/
theorem inferNotReady (lang : String) (modelFn : List ℚ → Nat → ModelOutcome)
    (st : TransState) (audioData : List ℚ) (sampleRate : Nat)
    (h : st.modelLoaded = false) :
    transcribe lang modelFn st audioData sampleRate =
      { result := { text := [], language := lang, success := false,
                    error := some "errors.model_not_loaded" },
        modelCalled := false, samplesSent := none, finalState := st } := by
  simp [transcribe, h]

/-- Witness for C5 at a concrete unloaded transcriber. -/
theorem inferNotReadyWitness :
    transcribe "fr" (fun _ _ => ModelOutcome.oom)
        { modelLoaded := false, loading := true } [1, 1 / 2] 16000 =
      { result := { text := [], language := "fr", success := false,
                    error := some "errors.model_not_loaded" },
        modelCalled := false, samplesSent := none,
        finalState := { modelLoaded := false, loading := true } } :=
  inferNotReady "fr" (fun _ _ => ModelOutcome.oom)
    { modelLoaded := false, loading := true } [1, 1 / 2] 16000 rfl

/-- C6 counterexample: stopping an active capture at elapsed time 1 with
zero appended chunks returns the no-audio result whose duration field is 0
— not `now - start = 1` as the claim states — and whose validity flag is
false although the elapsed duration 1 exceeds the 0.5 minimum. -/
theorem stopDurationCounterexample :
    (stopRecording 1
        { recording := true, audioData := [], startTime := 0,
          streamOpen := true, sampleRate := 16000 }).1 =
      some { audioData := [], sampleRate := 16000, duration := 0,
             isValid := false } ∧
      (0 : ℚ) ≠ 1 - 0 ∧ minDuration ≤ 1 - 0 := by
  refine ⟨rfl, by norm_num, by norm_num [minDuration]⟩

/-- C6 amended: for a stop on an active capture the claim holds whenever
at least one chunk was appended — the duration field is `now` minus the
recorded start timestamp and the validity flag is set iff that duration
reaches the configured 0.5-second minimum; with zero chunks the result is
instead the explicit no-audio one: duration field 0 and validity false
regardless of elapsed time. -/
theorem stopDurationAmended (st : RecState) (now : ℚ) (r : RecordingResult)
    (st1 : RecState) (hrec : st.recording = true)
    (h : stopRecording now st = (some r, st1)) :
    (st.audioData = [] → r.duration = 0 ∧ r.isValid = false) ∧
      (st.audioData ≠ [] → r.duration = now - st.startTime ∧
        (r.isValid = true ↔ minDuration ≤ now - st.startTime)) := by
  unfold stopRecording at h
  rw [hrec] at h
  simp only [Bool.not_true, Bool.false_eq_true, if_false] at h
  by_cases he : st.audioData.isEmpty
  · rw [if_pos he] at h
    obtain ⟨h1, -⟩ := Prod.mk.injEq .. ▸ h
    injection h1 with h1
    subst h1
    refine ⟨fun _ => ⟨rfl, rfl⟩, fun hne => absurd (List.isEmpty_iff.mp he) hne⟩
  · rw [if_neg he] at h
    obtain ⟨h1, -⟩ := Prod.mk.injEq .. ▸ h
    injection h1 with h1
    subst h1
    refine ⟨fun hemp => absurd (List.isEmpty_iff.mpr hemp) he, fun _ => ⟨rfl, ?_⟩⟩
    simp

/-- Witness for C6 amended at a concrete one-chunk capture stopped after
one second. -/
theorem stopDurationAmendedWitness :
    (([[(0 : ℚ)]] : List (List ℚ)) = [] → (1 : ℚ) = 0 ∧ true = false) ∧
      (([[(0 : ℚ)]] : List (List ℚ)) ≠ [] →
        (1 : ℚ) = 1 - 0 ∧ (true = true ↔ minDuration ≤ 1 - 0)) :=
  stopDurationAmended
    { recording := true, audioData := [[0]], startTime := 0,
      streamOpen := true, sampleRate := 16000 } 1
    { audioData := [0], sampleRate := 16000, duration := 1, isValid := true }
    { recording := false, audioData := [[0]], startTime := 0,
      streamOpen := false, sampleRate := 16000 } rfl (by
        norm_num [stopRecording, minDuration])

/-- C7: a second `start_recording` without an intervening stop (the first
call having succeeded) returns false and leaves the recorder state —
buffer contents, start timestamp and recording flag — exactly unchanged. -/
theorem startTwiceRejected (st : RecState) (now1 now2 : ℚ) (ok1 ok2 : Bool)
    (r1 : Bool) (s1 : RecState)
    (h : startRecording now1 ok1 st = (r1, s1)) (hr : r1 = true) :
    startRecording now2 ok2 s1 = (false, s1) := by
  subst hr
  unfold startRecording at h
  by_cases hrec : st.recording
  · rw [if_pos hrec] at h
    exact absurd (congrArg Prod.fst h).symm (by simp)
  · rw [if_neg hrec] at h
    by_cases hok : ok1
    · rw [if_pos hok] at h
      injection h with h1 h2
      subst h2
      simp [startRecording]
    · rw [if_neg hok] at h
      exact absurd (congrArg Prod.fst h).symm (by simp)

/-- Witness for C7: a fresh recorder started successfully, then started
again. -/
theorem startTwiceRejectedWitness :
    startRecording 1 true
        { recording := true, audioData := [], startTime := 0,
          streamOpen := true, sampleRate := 16000 } =
      (false,
        { recording := true, audioData := [], startTime := 0,
          streamOpen := true, sampleRate := 16000 }) :=
  startTwiceRejected recInit 0 1 true true true
    { recording := true, audioData := [], startTime := 0,
      streamOpen := true, sampleRate := 16000 } (by decide) rfl

/-- C8: when the corrected output contains no dictionary key as a
whole-word case-insensitive match, applying the correction again leaves it
unchanged — no double substitution. -/
theorem correctIdempotent (rules : List Rule) (text : List Nat)
    (h : hasMatch (buildPatternKeys rules) (correct rules text) = false) :
    correct rules (correct rules text) = correct rules text := by
  generalize hy : correct rules text = y at h
  unfold correct
  split
  · rfl
  · exact subAux_eq_self_of_noMatch _ _ y none (y.length + 1) h

/-- Witness for C8: the rule mapping `ia` to `AI` applied to `ia` yields
`AI`, which matches no key, and a second application fixes it. -/
theorem correctIdempotentWitness :
    hasMatch (buildPatternKeys [(codes "ia", codes "AI")])
        (correct [(codes "ia", codes "AI")] (codes "ia")) = false ∧
      correct [(codes "ia", codes "AI")]
          (correct [(codes "ia", codes "AI")] (codes "ia")) =
        correct [(codes "ia", codes "AI")] (codes "ia") :=
  ⟨by decide, correctIdempotent [(codes "ia", codes "AI")] (codes "ia") (by decide)⟩

/-- C9: with the model loaded and a nonempty sample array, `transcribe`
sends the samples to the model peak-normalized — divided by the maximal
absolute sample, so every value sent lies in the interval from -1 to 1 —
and when the peak is exactly zero the division is skipped entirely and the
samples pass through unchanged, so normalization never divides by zero. -/
theorem normalizationGuard (lang : String)
    (modelFn : List ℚ → Nat → ModelOutcome) (st : TransState)
    (audioData : List ℚ) (sampleRate : Nat) (hst : st.modelLoaded = true)
    (hne : audioData ≠ []) :
    (maxAbs audioData = 0 →
        (transcribe lang modelFn st audioData sampleRate).samplesSent =
          some audioData) ∧
      (maxAbs audioData ≠ 0 →
        (transcribe lang modelFn st audioData sampleRate).samplesSent =
            some (audioData.map (· / maxAbs audioData)) ∧
          ∀ x ∈ audioData, -1 ≤ x / maxAbs audioData ∧
            x / maxAbs audioData ≤ 1) := by
  have hsent : (transcribe lang modelFn st audioData sampleRate).samplesSent =
      some (if 0 < maxAbs audioData then audioData.map (· / maxAbs audioData)
            else audioData) := by
    unfold transcribe
    rw [hst]
    simp only [Bool.not_true, Bool.false_eq_true, if_false,
      List.isEmpty_iff.not.mpr hne |> fun hp => eq_false hp, if_false]
    cases modelFn (if 0 < maxAbs audioData
        then audioData.map (· / maxAbs audioData) else audioData) sampleRate
      <;> rfl
  constructor
  · intro h0
    rw [hsent, h0]
    simp
  · intro hpos
    have hm : 0 < maxAbs audioData :=
      lt_of_le_of_ne (maxAbs_nonneg audioData) (Ne.symm hpos)
    rw [hsent, if_pos hm]
    refine ⟨rfl, fun x hx => ?_⟩
    have hb := abs_le.mp (abs_le_maxAbs audioData x hx)
    constructor
    · rw [le_div_iff₀ hm]
      linarith [hb.1]
    · rw [div_le_one hm]
      exact hb.2

/-- Witness for C9 at a concrete loaded transcriber and two samples with
peak 2. -/
theorem normalizationGuardWitness :
    (transcribe "fr" (fun _ _ => ModelOutcome.oom)
          { modelLoaded := true, loading := false } [(1 : ℚ) / 2, -2]
          16000).samplesSent =
        some (([(1 : ℚ) / 2, -2]).map (· / maxAbs [(1 : ℚ) / 2, -2])) ∧
      ∀ x ∈ [(1 : ℚ) / 2, -2], -1 ≤ x / maxAbs [(1 : ℚ) / 2, -2] ∧
        x / maxAbs [(1 : ℚ) / 2, -2] ≤ 1 :=
  (normalizationGuard "fr" (fun _ _ => ModelOutcome.oom)
    { modelLoaded := true, loading := false } [(1 : ℚ) / 2, -2] 16000 rfl
    (by decide)).2 (by norm_num [maxAbs, abs_of_nonneg, max_def])

/-- C10: correcting the empty string returns it unchanged, whatever the
rule set. -/
theorem correctEmptyText (rules : List Rule) : correct rules [] = [] := by
  simp [correct]

end Flototext
